import Mathlib

/-!
Shallow embedding of `src/weights_detection.py` (function `detect_weights`).

A frame is the per-timestep list of tracked 2D keypoints, in the caller's
fixed order: index 0 = left wrist, 1 = right wrist, 2 = left shoulder,
3 = right shoulder.  A history is the chronological list of frames.
Points carry exact real coordinates; `np.var` (population variance,
`ddof = 0`), `np.linalg.norm`, and `np.diff` are embedded below as `npVar`,
`dist`/`mag`, and `diffs`.  The `try/except` of the Python source is
embedded by `tryBody`, an `Except`-valued computation whose error case
models the situations in which the numpy pipeline raises (ragged frame
lists make `np.stack` fail; frames with fewer than four points make the
joint-extraction indexing fail); `detect_weights` catches the error case
and turns it into a negative result, exactly as the source's handler does.
-/

noncomputable section

namespace WeightsDetection

/-- A 2D keypoint: normalized image coordinates (x, y). -/
abbrev Point : Type := ℝ × ℝ

/-- One frame's worth of tracked keypoints (well-formed frames have 4). -/
abbrev Frame : Type := List Point

/-- The chronological window of frames examined by one detection call. -/
abbrev History : Type := List Frame

/-- A well-formed history: every frame has exactly four 2D points. -/
def WellFormed (h : History) : Prop := ∀ f ∈ h, f.length = 4

/-- Arithmetic mean of a list of reals (`np.mean`). -/
def mean (xs : List ℝ) : ℝ := xs.sum / xs.length

/-- Population variance of a list of reals (`np.var`, `ddof = 0`):
sum of squared deviations from the mean, divided by the count. -/
def npVar (xs : List ℝ) : ℝ :=
  ((xs.map fun x => (x - mean xs) ^ 2).sum) / xs.length

/-- Extract the time series of joint `i` from a history (`W[:, i, :]`). -/
def joint (i : ℕ) (h : History) : List Point :=
  h.map fun f => f.getD i (0, 0)

/-- Left-wrist series (`W[:, 0, :]`). -/
def wrist_l_pos (h : History) : List Point := joint 0 h

/-- Right-wrist series (`W[:, 1, :]`). -/
def wrist_r_pos (h : History) : List Point := joint 1 h

/-- Left-shoulder series (`W[:, 2, :]`). -/
def shoulder_l (h : History) : List Point := joint 2 h

/-- Right-shoulder series (`W[:, 3, :]`). -/
def shoulder_r (h : History) : List Point := joint 3 h

/-- Summed per-axis population variance of a 2D point series
(`np.var(ps, axis=0).sum()`). -/
def posVar (ps : List Point) : ℝ :=
  npVar (ps.map Prod.fst) + npVar (ps.map Prod.snd)

/-- Euclidean distance between two 2D points
(`np.linalg.norm(p - q)` on a length-2 vector). -/
def dist (p q : Point) : ℝ :=
  Real.sqrt ((p.1 - q.1) ^ 2 + (p.2 - q.2) ^ 2)

/-- Euclidean magnitude of a 2D vector (`np.linalg.norm(v)`). -/
def mag (p : Point) : ℝ := Real.sqrt (p.1 ^ 2 + p.2 ^ 2)

/-- Per-frame wrist-to-shoulder distance series
(`np.linalg.norm(wrist - shoulder, axis=1)`). -/
def distSeries (w s : List Point) : List ℝ := List.zipWith dist w s

/-- Left wrist-to-shoulder distance series (`dist_l`). -/
def dist_l (h : History) : List ℝ := distSeries (wrist_l_pos h) (shoulder_l h)

/-- Right wrist-to-shoulder distance series (`dist_r`). -/
def dist_r (h : History) : List ℝ := distSeries (wrist_r_pos h) (shoulder_r h)

/-- Consecutive-frame displacement vectors (`np.diff(ps, axis=0)`):
entry `t` is `ps[t+1] - ps[t]`; one entry fewer than the input. -/
def diffs (ps : List Point) : List Point :=
  List.zipWith (fun a b => (b.1 - a.1, b.2 - a.2)) ps ps.tail

/-- Left-wrist displacement-magnitude series (`vel_l_mag`). -/
def vel_l_mag (h : History) : List ℝ := (diffs (wrist_l_pos h)).map mag

/-- Right-wrist displacement-magnitude series (`vel_r_mag`). -/
def vel_r_mag (h : History) : List ℝ := (diffs (wrist_r_pos h)).map mag

/-- The per-frame plausible vertical band (`y_range_ok`): in every frame the
wrist y-coordinate lies strictly within (shoulder y − 0.3, shoulder y + 0.4),
for both sides. -/
def yRangeOK (h : History) : Prop :=
  ∀ f ∈ h,
    (f.getD 0 ((0 : ℝ), (0 : ℝ))).2 > (f.getD 2 (0, 0)).2 - 0.3 ∧
    (f.getD 0 ((0 : ℝ), (0 : ℝ))).2 < (f.getD 2 (0, 0)).2 + 0.4 ∧
    (f.getD 1 ((0 : ℝ), (0 : ℝ))).2 > (f.getD 3 (0, 0)).2 - 0.3 ∧
    (f.getD 1 ((0 : ℝ), (0 : ℝ))).2 < (f.getD 3 (0, 0)).2 + 0.4

/-- The five threshold checks combined (`weights_detected`), as computed in
the body of the `try` block once the arrays exist. -/
def checksHold (h : History) : Prop :=
  posVar (wrist_l_pos h) < 0.01 ∧ posVar (wrist_r_pos h) < 0.01 ∧
  npVar (dist_l h) < 0.015 ∧ npVar (dist_r h) < 0.015 ∧
  npVar (vel_l_mag h) < 0.008 ∧ npVar (vel_r_mag h) < 0.008 ∧
  yRangeOK h

/-- The condition under which the numpy pipeline of the `try` block runs
without raising: `np.stack` needs all frames to share one length, and the
joint extraction `W[:, 0..3, :]` needs that length to be at least 4. -/
def stackIndexOK (h : History) : Prop :=
  (∀ f ∈ h, f.length = h.headI.length) ∧ 4 ≤ h.headI.length

instance (h : History) : Decidable (stackIndexOK h) := by
  unfold stackIndexOK; exact instDecidableAnd

/-- The `try` block of the source: either the checks' outcome, or the
error that the numpy computation raises on malformed input. -/
def tryBody (h : History) : Except Unit Prop :=
  if stackIndexOK h then Except.ok (checksHold h) else Except.error ()

/-- `detect_weights`: `False` for an absent history or one shorter than 20
frames; otherwise the outcome of the `try` block, with any internal error
caught and converted to `False` (the source's `except` handler). -/
def detect_weights (input : Option History) : Prop :=
  match input with
  | none => False
  | some h =>
    if h.length < 20 then False
    else
      match tryBody h with
      | Except.ok p => p
      | Except.error _ => False

/-- Translate a point by a fixed 2D offset `v`. -/
def shiftP (v p : Point) : Point := (p.1 + v.1, p.2 + v.2)

/-- Translate every joint of every frame of a history by the offset `v`. -/
def translate (v : Point) (h : History) : History :=
  h.map fun f => f.map (shiftP v)

/-- A well-formed frame whose wrists sit exactly at shoulder height. -/
def calmFrame : Frame := [(0, 1), (0, 1), (0, 1), (0, 1)]

/-- A well-formed frame whose left wrist is 0.5 below (y-larger than) the
left shoulder, violating the `< shoulder + 0.4` band condition. -/
def lowWristFrame : Frame := [(0, 1), (0, 0.5), (0, 0.5), (0, 0.5)]

/-- A well-formed frame with the left wrist displaced to x = 1. -/
def farFrame : Frame := [(1, 1), (0, 1), (0, 1), (0, 1)]

/-- A malformed frame holding only two points instead of four. -/
def shortFrame : Frame := [(0, 0), (0, 0)]

/-- A malformed history: 20 frames of two points each. -/
def shortHistory : History := shortFrame :: List.replicate 19 shortFrame

/-- 20 frames: 18 calm, then the left wrist jumps out and back. -/
def jumpHistory : History :=
  List.replicate 18 calmFrame ++ [farFrame, calmFrame]

/-- The same 20 frames with the final two swapped: the jump now ends the
window. -/
def jumpHistorySwapped : History :=
  List.replicate 18 calmFrame ++ [calmFrame, farFrame]

/-- 10 calm frames followed by 10 far frames: the left-wrist x series is
half zeros, half ones. -/
def splitHistory : History :=
  List.replicate 10 calmFrame ++ List.replicate 10 farFrame

/-! ### Basic lemmas about the embedded numerics -/

lemma npVar_nonneg (xs : List ℝ) : 0 ≤ npVar xs := by
  unfold npVar
  apply div_nonneg
  · apply List.sum_nonneg
    intro x hx
    obtain ⟨y, -, rfl⟩ := List.mem_map.mp hx
    positivity
  · positivity

lemma mean_replicate (n : ℕ) (hn : n ≠ 0) (c : ℝ) :
    mean (List.replicate n c) = c := by
  unfold mean
  simp [List.sum_replicate, nsmul_eq_mul]
  field_simp

lemma npVar_replicate (n : ℕ) (c : ℝ) :
    npVar (List.replicate n c) = 0 := by
  rcases Nat.eq_zero_or_pos n with rfl | hn
  · simp [npVar, mean]
  · unfold npVar
    rw [mean_replicate n hn.ne' c]
    simp [List.map_replicate, List.sum_replicate]

lemma joint_replicate (i : ℕ) (n : ℕ) (f : Frame) :
    joint i (List.replicate n f) = List.replicate n (f.getD i (0, 0)) := by
  simp [joint, List.map_replicate]

lemma posVar_replicate (n : ℕ) (p : Point) :
    posVar (List.replicate n p) = 0 := by
  simp [posVar, List.map_replicate, npVar_replicate]

lemma zipWith_replicate_same {α β γ : Type} (g : α → β → γ) (n : ℕ)
    (a : α) (b : β) :
    List.zipWith g (List.replicate n a) (List.replicate n b) =
      List.replicate n (g a b) := by
  induction n with
  | zero => simp
  | succ k ih => simp [List.replicate_succ, ih]

lemma zipWith_replicate_tail {α γ : Type} (g : α → α → γ) (k : ℕ) (p : α) :
    List.zipWith g (p :: List.replicate k p) (List.replicate k p) =
      List.replicate k (g p p) := by
  induction k with
  | zero => simp
  | succ m ih =>
      show List.zipWith g (p :: p :: List.replicate m p)
          (p :: List.replicate m p) = _
      rw [List.zipWith_cons_cons, ih, List.replicate_succ]

lemma diffs_replicate (n : ℕ) (p : Point) :
    diffs (List.replicate n p) = List.replicate (n - 1) (0, 0) := by
  cases n with
  | zero => simp [diffs]
  | succ k =>
      show diffs (p :: List.replicate k p) = _
      unfold diffs
      rw [List.tail_cons, zipWith_replicate_tail]
      simp

lemma mag_zero : mag (0, 0) = 0 := by
  simp [mag]

lemma headI_length_of_wf {h : History} (hne : h ≠ [])
    (hwf : WellFormed h) : h.headI.length = 4 := by
  cases h with
  | nil => exact absurd rfl hne
  | cons a t => exact hwf a (List.mem_cons_self a t)

lemma stackIndexOK_of_wf {h : History} (hne : h ≠ [])
    (hwf : WellFormed h) : stackIndexOK h := by
  refine ⟨fun f hf => ?_, ?_⟩
  · rw [hwf f hf, headI_length_of_wf hne hwf]
  · rw [headI_length_of_wf hne hwf]

/-- For a well-formed history of at least 20 frames, the detector's result
is exactly the conjunction of the five threshold checks. -/
lemma detect_iff_checks {h : History} (hwf : WellFormed h)
    (hlen : 20 ≤ h.length) :
    (detect_weights (some h) ↔ checksHold h) := by
  have hne : h ≠ [] := by
    intro he; rw [he] at hlen; simp at hlen
  have hso : stackIndexOK h := stackIndexOK_of_wf hne hwf
  show (if h.length < 20 then False
        else match tryBody h with
          | Except.ok p => p
          | Except.error _ => False) ↔ checksHold h
  rw [if_neg (by omega : ¬h.length < 20)]
  unfold tryBody
  rw [if_pos hso]

lemma detect_some_eq (h : History) :
    detect_weights (some h) =
      (if h.length < 20 then False
       else
         match tryBody h with
         | Except.ok p => p
         | Except.error _ => False) := rfl

lemma wellFormed_replicate {f : Frame} (hf : f.length = 4) (n : ℕ) :
    WellFormed (List.replicate n f) := by
  intro g hg
  rw [List.eq_of_mem_replicate hg, hf]

lemma calmFrame_length : calmFrame.length = 4 := rfl

/-! ### Claim theorems -/

/-- C1: for every well-formed history of length T ≥ 20, `detect_weights`
returns true iff the summed per-axis population variance of each wrist is
< 0.01, the population variance of each wrist-to-shoulder distance series
is < 0.015, the population variance of each wrist's consecutive-frame
displacement magnitudes is < 0.008, and the vertical band holds in every
frame — the logical AND of all the checks. -/
theorem detect_iff_all_thresholds (h : History) (hwf : WellFormed h)
    (hlen : 20 ≤ h.length) :
    detect_weights (some h) ↔
      (posVar (wrist_l_pos h) < 0.01 ∧ posVar (wrist_r_pos h) < 0.01 ∧
       npVar (dist_l h) < 0.015 ∧ npVar (dist_r h) < 0.015 ∧
       npVar (vel_l_mag h) < 0.008 ∧ npVar (vel_r_mag h) < 0.008 ∧
       yRangeOK h) :=
  detect_iff_checks hwf hlen

/-- Witness for C1 at 20 copies of `calmFrame`. -/
theorem detect_iff_all_thresholds_witness :
    WellFormed (List.replicate 20 calmFrame) ∧
    20 ≤ (List.replicate 20 calmFrame).length ∧
    (detect_weights (some (List.replicate 20 calmFrame)) ↔
      (posVar (wrist_l_pos (List.replicate 20 calmFrame)) < 0.01 ∧
       posVar (wrist_r_pos (List.replicate 20 calmFrame)) < 0.01 ∧
       npVar (dist_l (List.replicate 20 calmFrame)) < 0.015 ∧
       npVar (dist_r (List.replicate 20 calmFrame)) < 0.015 ∧
       npVar (vel_l_mag (List.replicate 20 calmFrame)) < 0.008 ∧
       npVar (vel_r_mag (List.replicate 20 calmFrame)) < 0.008 ∧
       yRangeOK (List.replicate 20 calmFrame))) :=
  ⟨wellFormed_replicate calmFrame_length 20, by simp,
    detect_iff_all_thresholds _ (wellFormed_replicate calmFrame_length 20)
      (by simp)⟩

/-- C2: an absent history, and any history of fewer than 20 frames, yields
a false detection immediately (the guard precedes every computation). -/
theorem detect_short_history_false :
    ¬detect_weights none ∧
      ∀ h : History, h.length < 20 → ¬detect_weights (some h) := by
  constructor
  · exact fun hF => hF
  · intro h hlt hd
    rw [detect_some_eq, if_pos hlt] at hd
    exact hd

/-- Witness for C2 at the empty history. -/
theorem detect_short_history_false_witness :
    ([] : History).length < 20 ∧ ¬detect_weights (some ([] : History)) :=
  ⟨by simp, detect_short_history_false.2 [] (by simp)⟩

/-- C9: `detect_weights` is a pure function of its input — the embedding
keeps no state and draws no randomness, so two calls on the same history
are interchangeable. -/
theorem detect_deterministic (input : Option History) :
    detect_weights input ↔ detect_weights input := Iff.rfl

/-- C6: every variance the detector uses is the population variance — the
sum of squared deviations from the mean divided by the sample count — and
the series it is applied to have T entries for positions and distances and
T − 1 entries for the displacement magnitudes; on the two-element list
[0, 1] it yields 1/4 (division by the count 2), not the 1/2 that division
by count − 1 would give. -/
theorem variances_are_population :
    (∀ xs : List ℝ,
       npVar xs = ((xs.map fun x => (x - xs.sum / xs.length) ^ 2).sum) /
         xs.length) ∧
    (∀ h : History,
       (wrist_l_pos h).length = h.length ∧
       (wrist_r_pos h).length = h.length ∧
       (dist_l h).length = h.length ∧
       (dist_r h).length = h.length ∧
       (vel_l_mag h).length = h.length - 1 ∧
       (vel_r_mag h).length = h.length - 1) ∧
    npVar [(0 : ℝ), 1] = 1 / 4 ∧
    (((([(0 : ℝ), 1]).map fun x => (x - mean [(0 : ℝ), 1]) ^ 2).sum) /
        (([(0 : ℝ), 1].length : ℝ) - 1) = 1 / 2) := by
  refine ⟨fun xs => rfl, fun h => ?_, ?_, ?_⟩
  · refine ⟨by simp [wrist_l_pos, joint], by simp [wrist_r_pos, joint],
      ?_, ?_, ?_, ?_⟩
    · simp [dist_l, distSeries, wrist_l_pos, shoulder_l, joint]
    · simp [dist_r, distSeries, wrist_r_pos, shoulder_r, joint]
    · simp [vel_l_mag, diffs, wrist_l_pos, joint]
    · simp [vel_r_mag, diffs, wrist_r_pos, joint]
  · norm_num [npVar, mean]
  · norm_num [mean]

/-- C3: whenever the computation inside the `try` block fails, the failure
is caught at the component boundary and converted to a false result; and
every positive result comes from a fully successful run of the body, so no
error path ever escapes to the caller. -/
theorem detect_catches_failures :
    (∀ h : History, tryBody h = Except.error () → ¬detect_weights (some h)) ∧
    (∀ input : Option History, detect_weights input →
       ∃ h, input = some h ∧ 20 ≤ h.length ∧
         tryBody h = Except.ok (checksHold h)) := by
  constructor
  · intro h herr hd
    rw [detect_some_eq] at hd
    by_cases hl : h.length < 20
    · rw [if_pos hl] at hd
      exact hd
    · rw [if_neg hl, herr] at hd
      exact hd
  · intro input hd
    match input with
    | none => exact hd.elim
    | some h =>
      rw [detect_some_eq] at hd
      by_cases hl : h.length < 20
      · rw [if_pos hl] at hd
        exact hd.elim
      · by_cases hso : stackIndexOK h
        · exact ⟨h, rfl, by omega, by unfold tryBody; rw [if_pos hso]⟩
        · have herr : tryBody h = Except.error () := by
            unfold tryBody
            rw [if_neg hso]
          rw [if_neg hl, herr] at hd
          exact hd.elim

/-- Witness for C3 at a 20-frame history of two-point frames, on which the
joint extraction fails. -/
theorem detect_catches_failures_witness :
    tryBody shortHistory = Except.error () ∧
      ¬detect_weights (some shortHistory) := by
  have hnot : ¬stackIndexOK shortHistory := by
    intro hso
    have h4 := hso.2
    have h2 : shortHistory.headI.length = 2 := rfl
    omega
  have herr : tryBody shortHistory = Except.error () := by
    unfold tryBody
    rw [if_neg hnot]
  exact ⟨herr, detect_catches_failures.1 shortHistory herr⟩

/-- C4: for a well-formed history of length ≥ 20, a single frame violating
any of the four vertical-band conditions forces a false detection,
whatever the variance signals are. -/
theorem band_violation_false (h : History) (hwf : WellFormed h)
    (hlen : 20 ≤ h.length)
    (hviol : ∃ f ∈ h,
      ¬((f.getD 0 ((0 : ℝ), (0 : ℝ))).2 > (f.getD 2 (0, 0)).2 - 0.3 ∧
        (f.getD 0 ((0 : ℝ), (0 : ℝ))).2 < (f.getD 2 (0, 0)).2 + 0.4 ∧
        (f.getD 1 ((0 : ℝ), (0 : ℝ))).2 > (f.getD 3 (0, 0)).2 - 0.3 ∧
        (f.getD 1 ((0 : ℝ), (0 : ℝ))).2 < (f.getD 3 (0, 0)).2 + 0.4)) :
    ¬detect_weights (some h) := by
  rw [detect_iff_checks hwf hlen]
  rintro ⟨-, -, -, -, -, -, hy⟩
  obtain ⟨f, hf, hnot⟩ := hviol
  exact hnot (hy f hf)

/-- Witness for C4: 20 copies of a frame whose left wrist is 0.5 below the
left shoulder (violating the `< shoulder + 0.4` condition in every frame),
all variances being zero. -/
theorem band_violation_false_witness :
    WellFormed (List.replicate 20 lowWristFrame) ∧
    20 ≤ (List.replicate 20 lowWristFrame).length ∧
    (∃ f ∈ List.replicate 20 lowWristFrame,
      ¬((f.getD 0 ((0 : ℝ), (0 : ℝ))).2 > (f.getD 2 (0, 0)).2 - 0.3 ∧
        (f.getD 0 ((0 : ℝ), (0 : ℝ))).2 < (f.getD 2 (0, 0)).2 + 0.4 ∧
        (f.getD 1 ((0 : ℝ), (0 : ℝ))).2 > (f.getD 3 (0, 0)).2 - 0.3 ∧
        (f.getD 1 ((0 : ℝ), (0 : ℝ))).2 < (f.getD 3 (0, 0)).2 + 0.4)) ∧
    ¬detect_weights (some (List.replicate 20 lowWristFrame)) := by
  have hwf : WellFormed (List.replicate 20 lowWristFrame) :=
    wellFormed_replicate (show lowWristFrame.length = 4 from rfl) 20
  have hviol : ∃ f ∈ List.replicate 20 lowWristFrame,
      ¬((f.getD 0 ((0 : ℝ), (0 : ℝ))).2 > (f.getD 2 (0, 0)).2 - 0.3 ∧
        (f.getD 0 ((0 : ℝ), (0 : ℝ))).2 < (f.getD 2 (0, 0)).2 + 0.4 ∧
        (f.getD 1 ((0 : ℝ), (0 : ℝ))).2 > (f.getD 3 (0, 0)).2 - 0.3 ∧
        (f.getD 1 ((0 : ℝ), (0 : ℝ))).2 < (f.getD 3 (0, 0)).2 + 0.4) := by
    refine ⟨lowWristFrame, List.mem_replicate.mpr ⟨by norm_num, rfl⟩, ?_⟩
    intro hcon
    have hb := hcon.2.1
    have e1 : (lowWristFrame.getD 0 ((0 : ℝ), (0 : ℝ))).2 = 1 := rfl
    have e2 : (lowWristFrame.getD 2 ((0 : ℝ), (0 : ℝ))).2 = 0.5 := rfl
    rw [e1, e2] at hb
    norm_num at hb
  exact ⟨hwf, by simp, hviol,
    band_violation_false _ hwf (by simp) hviol⟩

/-- C5: 20 identical well-formed frames whose wrists sit strictly inside
the vertical band yield a positive detection: every variance is zero and
every strict threshold holds. -/
theorem identical_frames_detect (f : Frame) (hf4 : f.length = 4)
    (hband : (f.getD 0 ((0 : ℝ), (0 : ℝ))).2 > (f.getD 2 (0, 0)).2 - 0.3 ∧
      (f.getD 0 ((0 : ℝ), (0 : ℝ))).2 < (f.getD 2 (0, 0)).2 + 0.4 ∧
      (f.getD 1 ((0 : ℝ), (0 : ℝ))).2 > (f.getD 3 (0, 0)).2 - 0.3 ∧
      (f.getD 1 ((0 : ℝ), (0 : ℝ))).2 < (f.getD 3 (0, 0)).2 + 0.4) :
    detect_weights (some (List.replicate 20 f)) := by
  rw [detect_iff_checks (wellFormed_replicate hf4 20) (by simp)]
  refine ⟨?_, ?_, ?_, ?_, ?_, ?_, ?_⟩
  · rw [wrist_l_pos, joint_replicate, posVar_replicate]
    norm_num
  · rw [wrist_r_pos, joint_replicate, posVar_replicate]
    norm_num
  · rw [dist_l, wrist_l_pos, shoulder_l, joint_replicate, joint_replicate,
      distSeries, zipWith_replicate_same, npVar_replicate]
    norm_num
  · rw [dist_r, wrist_r_pos, shoulder_r, joint_replicate, joint_replicate,
      distSeries, zipWith_replicate_same, npVar_replicate]
    norm_num
  · rw [vel_l_mag, wrist_l_pos, joint_replicate, diffs_replicate,
      List.map_replicate, mag_zero, npVar_replicate]
    norm_num
  · rw [vel_r_mag, wrist_r_pos, joint_replicate, diffs_replicate,
      List.map_replicate, mag_zero, npVar_replicate]
    norm_num
  · intro g hg
    rw [List.eq_of_mem_replicate hg]
    exact hband

/-- Witness for C5 at 20 copies of `calmFrame`. -/
theorem identical_frames_detect_witness :
    calmFrame.length = 4 ∧
    ((calmFrame.getD 0 ((0 : ℝ), (0 : ℝ))).2 >
        (calmFrame.getD 2 (0, 0)).2 - 0.3 ∧
      (calmFrame.getD 0 ((0 : ℝ), (0 : ℝ))).2 <
        (calmFrame.getD 2 (0, 0)).2 + 0.4 ∧
      (calmFrame.getD 1 ((0 : ℝ), (0 : ℝ))).2 >
        (calmFrame.getD 3 (0, 0)).2 - 0.3 ∧
      (calmFrame.getD 1 ((0 : ℝ), (0 : ℝ))).2 <
        (calmFrame.getD 3 (0, 0)).2 + 0.4) ∧
    detect_weights (some (List.replicate 20 calmFrame)) := by
  have hband : (calmFrame.getD 0 ((0 : ℝ), (0 : ℝ))).2 >
        (calmFrame.getD 2 (0, 0)).2 - 0.3 ∧
      (calmFrame.getD 0 ((0 : ℝ), (0 : ℝ))).2 <
        (calmFrame.getD 2 (0, 0)).2 + 0.4 ∧
      (calmFrame.getD 1 ((0 : ℝ), (0 : ℝ))).2 >
        (calmFrame.getD 3 (0, 0)).2 - 0.3 ∧
      (calmFrame.getD 1 ((0 : ℝ), (0 : ℝ))).2 <
        (calmFrame.getD 3 (0, 0)).2 + 0.4 := by
    have e0 : (calmFrame.getD 0 ((0 : ℝ), (0 : ℝ))).2 = 1 := rfl
    have e1 : (calmFrame.getD 1 ((0 : ℝ), (0 : ℝ))).2 = 1 := rfl
    have e2 : (calmFrame.getD 2 ((0 : ℝ), (0 : ℝ))).2 = 1 := rfl
    have e3 : (calmFrame.getD 3 ((0 : ℝ), (0 : ℝ))).2 = 1 := rfl
    rw [e0, e1, e2, e3]
    norm_num
  exact ⟨rfl, hband, identical_frames_detect calmFrame rfl hband⟩

lemma wellFormed_append {h1 h2 : History} (w1 : WellFormed h1)
    (w2 : WellFormed h2) : WellFormed (h1 ++ h2) := by
  intro g hg
  rcases List.mem_append.mp hg with hm | hm
  · exact w1 g hm
  · exact w2 g hm

lemma farFrame_length : farFrame.length = 4 := rfl

lemma wellFormed_splitHistory : WellFormed splitHistory :=
  wellFormed_append (wellFormed_replicate calmFrame_length 10)
    (wellFormed_replicate farFrame_length 10)

lemma wristLx_splitHistory :
    (wrist_l_pos splitHistory).map Prod.fst =
      List.replicate 10 (0 : ℝ) ++ List.replicate 10 1 := by
  simp [wrist_l_pos, joint, splitHistory, List.map_append, List.map_replicate,
    calmFrame, farFrame]

lemma npVar_splitList :
    npVar (List.replicate 10 (0 : ℝ) ++ List.replicate 10 1) = 1 / 4 := by
  unfold npVar mean
  norm_num [List.sum_append, List.map_append, List.map_replicate,
    List.sum_replicate]

/-- C7: for a well-formed history of length ≥ 20, if the population
variance of any single wrist coordinate axis reaches 0.01, the summed
per-axis position variance of that wrist fails its strict threshold and
the detection is false regardless of the other signals. -/
theorem high_axis_variance_false (h : History) (hwf : WellFormed h)
    (hlen : 20 ≤ h.length)
    (hvar : 0.01 ≤ npVar ((wrist_l_pos h).map Prod.fst) ∨
      0.01 ≤ npVar ((wrist_l_pos h).map Prod.snd) ∨
      0.01 ≤ npVar ((wrist_r_pos h).map Prod.fst) ∨
      0.01 ≤ npVar ((wrist_r_pos h).map Prod.snd)) :
    ¬detect_weights (some h) := by
  rw [detect_iff_checks hwf hlen]
  rintro ⟨hL, hR, -, -, -, -, -⟩
  unfold posVar at hL hR
  have n1 := npVar_nonneg ((wrist_l_pos h).map Prod.fst)
  have n2 := npVar_nonneg ((wrist_l_pos h).map Prod.snd)
  have n3 := npVar_nonneg ((wrist_r_pos h).map Prod.fst)
  have n4 := npVar_nonneg ((wrist_r_pos h).map Prod.snd)
  rcases hvar with hv | hv | hv | hv <;> linarith

/-- Witness for C7: ten calm frames then ten far frames put variance 1/4 on
the left-wrist x axis, and the detection is false. -/
theorem high_axis_variance_false_witness :
    WellFormed splitHistory ∧ 20 ≤ splitHistory.length ∧
    (0.01 ≤ npVar ((wrist_l_pos splitHistory).map Prod.fst) ∨
      0.01 ≤ npVar ((wrist_l_pos splitHistory).map Prod.snd) ∨
      0.01 ≤ npVar ((wrist_r_pos splitHistory).map Prod.fst) ∨
      0.01 ≤ npVar ((wrist_r_pos splitHistory).map Prod.snd)) ∧
    ¬detect_weights (some splitHistory) := by
  have hlen : 20 ≤ splitHistory.length := by simp [splitHistory]
  have hvar : 0.01 ≤ npVar ((wrist_l_pos splitHistory).map Prod.fst) := by
    rw [wristLx_splitHistory, npVar_splitList]
    norm_num
  exact ⟨wellFormed_splitHistory, hlen, Or.inl hvar,
    high_axis_variance_false _ wellFormed_splitHistory hlen (Or.inl hvar)⟩

lemma mean_perm {xs ys : List ℝ} (hp : xs.Perm ys) : mean xs = mean ys := by
  unfold mean
  rw [hp.sum_eq, hp.length_eq]

lemma npVar_perm {xs ys : List ℝ} (hp : xs.Perm ys) : npVar xs = npVar ys := by
  unfold npVar
  rw [mean_perm hp, (hp.map fun x => (x - mean ys) ^ 2).sum_eq, hp.length_eq]

lemma posVar_perm {ps qs : List Point} (hp : ps.Perm qs) :
    posVar ps = posVar qs := by
  unfold posVar
  rw [npVar_perm (hp.map Prod.fst), npVar_perm (hp.map Prod.snd)]

lemma zipWith_map_same {α β γ δ : Type} (F : β → γ → δ) (g : α → β)
    (g' : α → γ) (l : List α) :
    List.zipWith F (l.map g) (l.map g') = l.map fun x => F (g x) (g' x) := by
  induction l with
  | nil => rfl
  | cons a t ih => simp [ih]

lemma dist_l_eq_map (h : History) :
    dist_l h = h.map fun f => dist (f.getD 0 (0, 0)) (f.getD 2 (0, 0)) := by
  unfold dist_l distSeries wrist_l_pos shoulder_l joint
  rw [zipWith_map_same]

lemma dist_r_eq_map (h : History) :
    dist_r h = h.map fun f => dist (f.getD 1 (0, 0)) (f.getD 3 (0, 0)) := by
  unfold dist_r distSeries wrist_r_pos shoulder_r joint
  rw [zipWith_map_same]

lemma diffs_cons_cons (a b : Point) (l : List Point) :
    diffs (a :: b :: l) =
      (b.1 - a.1, b.2 - a.2) :: diffs (b :: l) := rfl

lemma diffs_replicate_append (n : ℕ) (z : Point) (rest : List Point) :
    diffs (List.replicate (n + 1) z ++ rest) =
      List.replicate n ((0 : ℝ), (0 : ℝ)) ++ diffs (z :: rest) := by
  induction n with
  | zero => simp
  | succ m ih =>
      show diffs (z :: z :: (List.replicate m z ++ rest)) = _
      rw [diffs_cons_cons,
        show z :: (List.replicate m z ++ rest) =
          List.replicate (m + 1) z ++ rest from rfl, ih]
      simp [List.replicate_succ]

lemma wristL_jumpHistory :
    wrist_l_pos jumpHistory =
      List.replicate 18 ((0 : ℝ), (1 : ℝ)) ++
        [((1 : ℝ), (1 : ℝ)), ((0 : ℝ), (1 : ℝ))] := by
  simp [wrist_l_pos, joint, jumpHistory, calmFrame, farFrame]

lemma wristL_jumpHistorySwapped :
    wrist_l_pos jumpHistorySwapped =
      List.replicate 18 ((0 : ℝ), (1 : ℝ)) ++
        [((0 : ℝ), (1 : ℝ)), ((1 : ℝ), (1 : ℝ))] := by
  simp [wrist_l_pos, joint, jumpHistorySwapped, calmFrame, farFrame]

lemma velMag_jumpHistory :
    vel_l_mag jumpHistory = List.replicate 17 (0 : ℝ) ++ [1, 1] := by
  rw [vel_l_mag, wristL_jumpHistory,
    diffs_replicate_append 17 ((0 : ℝ), (1 : ℝ))
      [((1 : ℝ), (1 : ℝ)), ((0 : ℝ), (1 : ℝ))],
    List.map_append, List.map_replicate, mag_zero]
  norm_num [diffs, mag, Real.sqrt_one]

lemma velMag_jumpHistorySwapped :
    vel_l_mag jumpHistorySwapped = List.replicate 17 (0 : ℝ) ++ [0, 1] := by
  rw [vel_l_mag, wristL_jumpHistorySwapped,
    diffs_replicate_append 17 ((0 : ℝ), (1 : ℝ))
      [((0 : ℝ), (1 : ℝ)), ((1 : ℝ), (1 : ℝ))],
    List.map_append, List.map_replicate, mag_zero]
  norm_num [diffs, mag, Real.sqrt_one, Real.sqrt_zero]

lemma npVar_jump : npVar (List.replicate 17 (0 : ℝ) ++ [1, 1]) = 34 / 361 := by
  unfold npVar mean
  norm_num [List.sum_append, List.map_append, List.map_replicate,
    List.sum_replicate]

lemma npVar_jumpSwapped :
    npVar (List.replicate 17 (0 : ℝ) ++ [0, 1]) = 18 / 361 := by
  unfold npVar mean
  norm_num [List.sum_append, List.map_append, List.map_replicate,
    List.sum_replicate]

lemma wellFormed_jumpHistory : WellFormed jumpHistory := by
  apply wellFormed_append (wellFormed_replicate calmFrame_length 18)
  intro g hg
  simp only [List.mem_cons, List.not_mem_nil, or_false] at hg
  rcases hg with rfl | rfl
  · exact farFrame_length
  · exact calmFrame_length

lemma jumpHistory_perm : jumpHistory.Perm jumpHistorySwapped :=
  List.Perm.append_left (List.replicate 18 calmFrame)
    (List.Perm.swap calmFrame farFrame [])

/-- C8: permuting the frames of a well-formed history never changes the two
position variances or the two wrist-to-shoulder distance variances, while
the velocity-magnitude variance is not preserved in general: one 20-frame
history and a transposition of its last two frames give different values. -/
theorem perm_invariance_of_pos_and_dist :
    (∀ h h' : History, 20 ≤ h.length → WellFormed h → h.Perm h' →
      posVar (wrist_l_pos h) = posVar (wrist_l_pos h') ∧
      posVar (wrist_r_pos h) = posVar (wrist_r_pos h') ∧
      npVar (dist_l h) = npVar (dist_l h') ∧
      npVar (dist_r h) = npVar (dist_r h')) ∧
    (∃ h h' : History, h.length = 20 ∧ WellFormed h ∧ h.Perm h' ∧
      npVar (vel_l_mag h) ≠ npVar (vel_l_mag h')) := by
  constructor
  · intro h h' _ _ hp
    refine ⟨posVar_perm (hp.map _), posVar_perm (hp.map _), ?_, ?_⟩
    · rw [dist_l_eq_map, dist_l_eq_map]
      exact npVar_perm (hp.map _)
    · rw [dist_r_eq_map, dist_r_eq_map]
      exact npVar_perm (hp.map _)
  · refine ⟨jumpHistory, jumpHistorySwapped, by simp [jumpHistory],
      wellFormed_jumpHistory, jumpHistory_perm, ?_⟩
    rw [velMag_jumpHistory, velMag_jumpHistorySwapped, npVar_jump,
      npVar_jumpSwapped]
    norm_num

/-- Witness for C8: the invariance half applied to 20 calm frames and the
identity permutation. -/
theorem perm_invariance_of_pos_and_dist_witness :
    20 ≤ (List.replicate 20 calmFrame).length ∧
    WellFormed (List.replicate 20 calmFrame) ∧
    (List.replicate 20 calmFrame).Perm (List.replicate 20 calmFrame) ∧
    (posVar (wrist_l_pos (List.replicate 20 calmFrame)) =
        posVar (wrist_l_pos (List.replicate 20 calmFrame)) ∧
      posVar (wrist_r_pos (List.replicate 20 calmFrame)) =
        posVar (wrist_r_pos (List.replicate 20 calmFrame)) ∧
      npVar (dist_l (List.replicate 20 calmFrame)) =
        npVar (dist_l (List.replicate 20 calmFrame)) ∧
      npVar (dist_r (List.replicate 20 calmFrame)) =
        npVar (dist_r (List.replicate 20 calmFrame))) :=
  ⟨by simp, wellFormed_replicate calmFrame_length 20, List.Perm.refl _,
    perm_invariance_of_pos_and_dist.1 _ _ (by simp)
      (wellFormed_replicate calmFrame_length 20) (List.Perm.refl _)⟩

lemma getD_map_of_lt (f : Frame) (g : Point → Point) {i : ℕ}
    (hi : i < f.length) :
    (f.map g).getD i (0, 0) = g (f.getD i (0, 0)) := by
  rw [List.getD_eq_getElem?_getD, List.getD_eq_getElem?_getD,
    List.getElem?_map, List.getElem?_eq_getElem hi]
  rfl

lemma joint_translate (i : ℕ) (hi : i < 4) (v : Point) {h : History}
    (hwf : WellFormed h) :
    joint i (translate v h) = (joint i h).map (shiftP v) := by
  unfold joint translate
  rw [List.map_map, List.map_map]
  refine List.map_congr_left fun f hf => ?_
  simp only [Function.comp_apply]
  exact getD_map_of_lt f (shiftP v) (by rw [hwf f hf]; omega)

lemma sum_map_add_const (xs : List ℝ) (c : ℝ) :
    (xs.map fun x => x + c).sum = xs.sum + xs.length * c := by
  induction xs with
  | nil => simp
  | cons a t ih =>
      simp only [List.map_cons, List.sum_cons, List.length_cons, ih]
      push_cast
      ring

lemma mean_map_add_const (xs : List ℝ) (c : ℝ) (hx : xs ≠ []) :
    mean (xs.map fun x => x + c) = mean xs + c := by
  unfold mean
  rw [List.length_map, sum_map_add_const]
  have hl : (xs.length : ℝ) ≠ 0 :=
    Nat.cast_ne_zero.mpr (List.length_pos.mpr hx).ne'
  field_simp
  ring

lemma npVar_map_add_const (xs : List ℝ) (c : ℝ) :
    npVar (xs.map fun x => x + c) = npVar xs := by
  rcases eq_or_ne xs [] with rfl | hx
  · simp
  · unfold npVar
    rw [mean_map_add_const xs c hx, List.length_map, List.map_map]
    have hm : xs.map ((fun x => (x - (mean xs + c)) ^ 2) ∘ fun x => x + c) =
        xs.map fun x => (x - mean xs) ^ 2 :=
      List.map_congr_left fun x _ => by
        simp only [Function.comp_apply]
        ring
    rw [hm]

lemma posVar_map_shift (v : Point) (ps : List Point) :
    posVar (ps.map (shiftP v)) = posVar ps := by
  unfold posVar
  have h1 : (ps.map (shiftP v)).map Prod.fst =
      (ps.map Prod.fst).map fun x => x + v.1 := by
    rw [List.map_map, List.map_map]
    rfl
  have h2 : (ps.map (shiftP v)).map Prod.snd =
      (ps.map Prod.snd).map fun x => x + v.2 := by
    rw [List.map_map, List.map_map]
    rfl
  rw [h1, h2, npVar_map_add_const, npVar_map_add_const]

lemma dist_shiftP (v p q : Point) :
    dist (shiftP v p) (shiftP v q) = dist p q := by
  unfold dist shiftP
  congr 1
  ring

lemma zipWith_map_both {α β α' β' γ : Type} (F : β → β' → γ) (g : α → β)
    (g' : α' → β') (l : List α) (l' : List α') :
    List.zipWith F (l.map g) (l'.map g') =
      List.zipWith (fun a b => F (g a) (g' b)) l l' := by
  induction l generalizing l' with
  | nil => rfl
  | cons a t ih => cases l' <;> simp [ih]

lemma dist_l_translate (v : Point) {h : History} (hwf : WellFormed h) :
    dist_l (translate v h) = dist_l h := by
  unfold dist_l wrist_l_pos shoulder_l distSeries
  rw [joint_translate 0 (by omega) v hwf, joint_translate 2 (by omega) v hwf,
    zipWith_map_both]
  have : (fun a b => dist (shiftP v a) (shiftP v b)) = dist := by
    funext a b
    exact dist_shiftP v a b
  rw [this]

lemma dist_r_translate (v : Point) {h : History} (hwf : WellFormed h) :
    dist_r (translate v h) = dist_r h := by
  unfold dist_r wrist_r_pos shoulder_r distSeries
  rw [joint_translate 1 (by omega) v hwf, joint_translate 3 (by omega) v hwf,
    zipWith_map_both]
  have : (fun a b => dist (shiftP v a) (shiftP v b)) = dist := by
    funext a b
    exact dist_shiftP v a b
  rw [this]

lemma diffs_map_shift (v : Point) (ps : List Point) :
    diffs (ps.map (shiftP v)) = diffs ps := by
  unfold diffs
  have ht : (ps.map (shiftP v)).tail = ps.tail.map (shiftP v) := by
    cases ps <;> rfl
  rw [ht, zipWith_map_both]
  have : (fun a b : Point => ((shiftP v b).1 - (shiftP v a).1,
      (shiftP v b).2 - (shiftP v a).2)) =
      fun a b : Point => (b.1 - a.1, b.2 - a.2) := by
    funext a b
    simp only [shiftP, Prod.mk.injEq]
    constructor <;> ring
  rw [this]

lemma vel_l_mag_translate (v : Point) {h : History} (hwf : WellFormed h) :
    vel_l_mag (translate v h) = vel_l_mag h := by
  unfold vel_l_mag wrist_l_pos
  rw [joint_translate 0 (by omega) v hwf, diffs_map_shift]

lemma vel_r_mag_translate (v : Point) {h : History} (hwf : WellFormed h) :
    vel_r_mag (translate v h) = vel_r_mag h := by
  unfold vel_r_mag wrist_r_pos
  rw [joint_translate 1 (by omega) v hwf, diffs_map_shift]

lemma yRangeOK_translate (v : Point) {h : History} (hwf : WellFormed h) :
    yRangeOK (translate v h) ↔ yRangeOK h := by
  unfold yRangeOK translate
  rw [List.forall_mem_map]
  refine forall_congr' fun f => imp_congr_right fun hf => ?_
  have h4 : f.length = 4 := hwf f hf
  rw [getD_map_of_lt f (shiftP v) (by omega),
    getD_map_of_lt f (shiftP v) (by omega),
    getD_map_of_lt f (shiftP v) (by omega),
    getD_map_of_lt f (shiftP v) (by omega)]
  simp only [shiftP]
  constructor <;> rintro ⟨c1, c2, c3, c4⟩ <;>
    exact ⟨by linarith, by linarith, by linarith, by linarith⟩

lemma translate_length (v : Point) (h : History) :
    (translate v h).length = h.length := by
  simp [translate]

lemma wellFormed_translate (v : Point) {h : History} (hwf : WellFormed h) :
    WellFormed (translate v h) := by
  intro g hg
  simp only [translate, List.mem_map] at hg
  obtain ⟨f, hf, rfl⟩ := hg
  simp [hwf f hf]

/-- C10: adding one fixed 2D offset to all four joints of every frame of a
well-formed history of length ≥ 20 leaves the detection result unchanged:
every signal the detector uses depends only on coordinate differences. -/
theorem detect_translation_invariant (v : Point) (h : History)
    (hwf : WellFormed h) (hlen : 20 ≤ h.length) :
    (detect_weights (some (translate v h)) ↔ detect_weights (some h)) := by
  rw [detect_iff_checks (wellFormed_translate v hwf)
      (by rw [translate_length]; exact hlen),
    detect_iff_checks hwf hlen]
  unfold checksHold
  have e1 : posVar (wrist_l_pos (translate v h)) = posVar (wrist_l_pos h) := by
    unfold wrist_l_pos
    rw [joint_translate 0 (by omega) v hwf, posVar_map_shift]
  have e2 : posVar (wrist_r_pos (translate v h)) = posVar (wrist_r_pos h) := by
    unfold wrist_r_pos
    rw [joint_translate 1 (by omega) v hwf, posVar_map_shift]
  rw [e1, e2, dist_l_translate v hwf, dist_r_translate v hwf,
    vel_l_mag_translate v hwf, vel_r_mag_translate v hwf,
    yRangeOK_translate v hwf]

/-- Witness for C10 at 20 calm frames and the offset (1/2, 1/4). -/
theorem detect_translation_invariant_witness :
    WellFormed (List.replicate 20 calmFrame) ∧
    20 ≤ (List.replicate 20 calmFrame).length ∧
    (detect_weights (some (translate ((1 : ℝ) / 2, (1 : ℝ) / 4)
        (List.replicate 20 calmFrame))) ↔
      detect_weights (some (List.replicate 20 calmFrame))) :=
  ⟨wellFormed_replicate calmFrame_length 20, by simp,
    detect_translation_invariant ((1 : ℝ) / 2, (1 : ℝ) / 4) _
      (wellFormed_replicate calmFrame_length 20) (by simp)⟩

end WeightsDetection
